import Mathlib

/-!
Verification of the Musebehavior serial loggers.

This file gives a shallow embedding, in Lean 4, of the two Python programs
of the repository:

  * `src/pc_lick_logger.py`   — the "token-anchored" logger: it scans each
    decoded serial line for the regex `(\d+)\tlick\t`, numbers the accepted
    events with a run-wide counter, writes `timestamp_ms, lick_number` rows
    to a CSV file, and rotates the file on a time boundary;
  * `src/serial_to_csv_rotating.py` — the "positional" logger: it splits each
    decoded line on the first run of whitespace into a numeric leading token
    and a remainder, writes `iso_time, device_timestamp_ms, cadena` rows, and
    rotates the file on a time boundary.

Lines are modelled as `List Char` (the text after the lossy `decode`, which
is the identity on the ASCII content all claims are about; the embedding of
`\d`, `str.strip` and `float` covers the ASCII fragment of Python's Unicode
tables, which is the fragment every claim exercises).  Wall-clock instants
are modelled as `Int`; each loop iteration receives the time samples the code
takes (`time.time()` / `datetime.now()` at the rotation check and at the file
open).  File contents are lists of rows; the side effects of one loop
iteration are recorded as a trace of `Act` actions (row writes, flushes,
closes, header writes, error logs, sleeps).
-/

/-- Python whitespace for `str.strip` / `str.split(None)` / `float`,
restricted to its ASCII part. -/
def isSpaceChar (c : Char) : Bool :=
  c = ' ' || c = '\t' || c = '\n' || c = '\r' || c = '\x0b' || c = '\x0c'

/-- Python `\d` (regex) and the digits `int`/`float` read, ASCII part. -/
def isAsciiDigit (c : Char) : Bool :=
  '0' ≤ c && c ≤ '9'

/-- Python `str.strip()`: drop leading and trailing whitespace. -/
def strip (s : List Char) : List Char :=
  ((s.dropWhile isSpaceChar).reverse.dropWhile isSpaceChar).reverse

/-- The characters of a string literal. -/
def chars (s : String) : List Char := s.data

/-- Value of a non-empty all-digit group, as Python `int(m.group(1))` reads it. -/
def digitsVal (d : List Char) : Nat :=
  d.foldl (fun a c => 10 * a + (c.toNat - 48)) 0

/-- Does the second list start with the first one? -/
def listStarts : List Char → List Char → Bool
  | [], _ => true
  | _ :: _, [] => false
  | a :: as, b :: bs => a = b && listStarts as bs

/-- Is `pat` a contiguous sublist of `s`? (Python `pat in s`.) -/
def listHas (pat : List Char) : List Char → Bool
  | [] => listStarts pat []
  | c :: rest => listStarts pat (c :: rest) || listHas pat rest

/-! ### The token-anchored extractor of `pc_lick_logger.py`

`LICK_RE = re.compile(r'(\d+)\tlick\t')` and `LICK_RE.search(s)`.
`re.search` tries each start position left to right; at a position the
greedy `\d+` takes the maximal digit run and backtracks until a position
where `\tlick\t` follows.  Since `\t` is not a digit, the only way the
literal can follow the group is at the end of the maximal run, so a match
at a position holds exactly when the maximal digit run there is non-empty
and is followed by the literal `\tlick\t`. -/

/-- The literal `\tlick\t` of `LICK_RE`. -/
def markerChars : List Char := ['\t', 'l', 'i', 'c', 'k', '\t']

/-- `LICK_RE` matched at the start of `s`: the maximal digit run must be
non-empty and `\tlick\t` must follow it; the value is `int` of the run. -/
def lickMatchAt (s : List Char) : Option Nat :=
  let d := s.takeWhile isAsciiDigit
  if d = [] then none
  else if listStarts markerChars (s.dropWhile isAsciiDigit) then some (digitsVal d)
  else none

/-- `LICK_RE.search`: leftmost match, scanning start positions left to right. -/
def lickSearch : List Char → Option Nat
  | [] => none
  | c :: rest =>
    match lickMatchAt (c :: rest) with
    | some n => some n
    | none => lickSearch rest

/-- What `pc_lick_logger.main` does with one decoded line (line 85 and 89–91):
`s = line.decode(...).strip()` then `LICK_RE.search(s)`. -/
def pcExtract (line : List Char) : Option Nat :=
  lickSearch (strip line)

/-! ### The positional extractor of `serial_to_csv_rotating.py`

`parse_line` strips the line, splits it with `line.split(None, 1)` and
validates the leading token with `float(ts_str)`. -/

/-- Python `s.split(None, 1)`: skip leading whitespace; if nothing is left
the result is `[]`; otherwise the first maximal non-whitespace token, and,
when anything follows the whitespace run after it, the untouched remainder. -/
def splitWs1 (s : List Char) : List (List Char) :=
  let s1 := s.dropWhile isSpaceChar
  if s1 = [] then []
  else
    let tok := s1.takeWhile (fun c => !isSpaceChar c)
    let rest := (s1.dropWhile (fun c => !isSpaceChar c)).dropWhile isSpaceChar
    if rest = [] then [tok] else [tok, rest]

/-- Consume Python's `digitpart` after its first digit: further digits with
single underscores allowed between digits; returns what is left. -/
def munchMore : List Char → List Char
  | '_' :: c :: rest => if isAsciiDigit c then munchMore rest else '_' :: c :: rest
  | c :: rest => if isAsciiDigit c then munchMore rest else c :: rest
  | [] => []

/-- Consume Python's `digitpart` (`digit (("_")? digit)*`): `some rest` when
at least one digit is read, `none` otherwise. -/
def munchDigits : List Char → Option (List Char)
  | c :: rest => if isAsciiDigit c then some (munchMore rest) else none
  | [] => none

/-- Consume the mantissa of a Python float literal:
`digitpart ["." [digitpart]] | "." digitpart`. -/
def munchNumber (s : List Char) : Option (List Char) :=
  match munchDigits s with
  | some rest =>
    match rest with
    | '.' :: rest2 =>
      match munchDigits rest2 with
      | some rest3 => some rest3
      | none => some rest2
    | _ => some rest
  | none =>
    match s with
    | '.' :: rest2 => munchDigits rest2
    | _ => none

/-- Consume the optional exponent `("e"|"E") ["+"|"-"] digitpart`. -/
def munchExp (s : List Char) : Option (List Char) :=
  match s with
  | c :: rest =>
    if c = 'e' || c = 'E' then
      match rest with
      | '+' :: r2 => munchDigits r2
      | '-' :: r2 => munchDigits r2
      | r2 => munchDigits r2
    else some (c :: rest)
  | [] => some []

/-- ASCII lower-casing, for the case-insensitive `inf`/`infinity`/`nan`. -/
def lowerChar (c : Char) : Char :=
  if 'A' ≤ c && c ≤ 'Z' then Char.ofNat (c.toNat + 32) else c

/-- The body of a Python float literal after the optional sign. -/
def pyFloatBody (s : List Char) : Bool :=
  s.map lowerChar = chars "inf" || s.map lowerChar = chars "infinity" ||
  s.map lowerChar = chars "nan" ||
  (match munchNumber s with
   | some rest =>
     match munchExp rest with
     | some [] => true
     | _ => false
   | none => false)

/-- Does Python `float(s)` succeed?  `float` strips whitespace, allows one
sign, and accepts `inf`, `infinity`, `nan` (case-insensitive) or a decimal
literal with optional fraction and exponent. -/
def isPyFloat (s : List Char) : Bool :=
  match strip s with
  | '+' :: r => pyFloatBody r
  | '-' :: r => pyFloatBody r
  | r => pyFloatBody r

/-- `parse_line` of `serial_to_csv_rotating.py` (lines 24–40): reject empty
input, strip, split on the first whitespace run into exactly two parts,
validate the leading token with `float`, and return `(ts_str, cadena)`. -/
def parse_line (line : List Char) : Option (List Char × List Char) :=
  if line = [] then none
  else
    let l := strip line
    if l = [] then none
    else
      match splitWs1 l with
      | [t, r] => if isPyFloat t then some (t, r) else none
      | _ => none

/-! ### Side-effect actions

Each loop iteration's observable effects, in order: a data-row write, a
header-row write, a flush of the open handle, a close of the open handle, an
error print to stderr, a short `time.sleep`. -/

/-- One observable side effect of a loop iteration; `ρ` is the row type. -/
inductive Act (ρ : Type) where
  | write (r : ρ)
  | writeHeader
  | flush
  | close
  | logError
  | sleepShort
deriving DecidableEq, Repr

/-- What `ser.readline()` yields this iteration: a decoded line, an empty
result (timeout), or a raised transport exception. -/
inductive ReadResult where
  | data (s : List Char)
  | empty
  | error
deriving DecidableEq, Repr

/-! ### The ingestion loop of `pc_lick_logger.py` (lines 70–106)

State after `open_csv`: the files already closed, the rows of the currently
open file, the open instant `opened_at`, and the run-wide `lick_count`. -/

/-- A CSV row of `pc_lick_logger.py`: the header `timestamp_ms, lick_number`
or an event row `[lick_ts, lick_count]`. -/
inductive PCRow where
  | header
  | event (ts : Nat) (seq : Nat)
deriving DecidableEq, Repr

/-- The session state of `pc_lick_logger.main`'s loop. -/
structure PCState where
  closedFiles : List (List PCRow)
  current : List PCRow
  openedAt : Int
  lickCount : Nat
deriving DecidableEq, Repr

/-- The record of one `writer.writerow([lick_ts, lick_count])`. -/
abbrev PCRec := Nat × Nat

/-- One loop iteration's inputs: the read result, the `time.time()` sample of
the rotation check (line 99), and the `time.time()` sample `open_csv` records
as the new `opened_at` when a rotation opens a file (line 45). -/
structure PCInput where
  read : ReadResult
  tCheck : Int
  tOpen : Int
deriving DecidableEq, Repr

/-- Lines 79–96: an empty read sleeps 10 ms; a line is decoded, stripped and
searched with `LICK_RE`; on a match the counter advances and the row
`[lick_ts, lick_count]` is written and flushed. -/
def pcIngest (st : PCState) (line : Option (List Char)) : PCState × List (Act PCRec) :=
  match line with
  | none => (st, [Act.sleepShort])
  | some l =>
    match pcExtract l with
    | none => (st, [])
    | some ts =>
      let n := st.lickCount + 1
      ({ st with lickCount := n, current := st.current ++ [PCRow.event ts n] },
       [Act.write (ts, n), Act.flush])

/-- Lines 98–106: if `time.time() - opened_at >= rotate_after`, flush and
close the current file (best effort) and `open_csv` a new one, whose header
is written and whose open instant becomes the new anchor; `lick_count` is
kept continuous across files. -/
def pcRotate (ra : Int) (st : PCState) (tCheck tOpen : Int) : PCState × List (Act PCRec) :=
  if ra ≤ tCheck - st.openedAt then
    ({ closedFiles := st.closedFiles ++ [st.current], current := [PCRow.header],
       openedAt := tOpen, lickCount := st.lickCount },
     [Act.flush, Act.close, Act.writeHeader])
  else (st, [])

/-- One full iteration of the `while True` body on a read that did not raise. -/
def pcStepCore (ra : Int) (st : PCState) (line : Option (List Char)) (tCheck tOpen : Int) :
    PCState × List (Act PCRec) :=
  let p := pcIngest st line
  let q := pcRotate ra p.1 tCheck tOpen
  (q.1, p.2 ++ q.2)

/-- One iteration including the read: `ser.readline()` has no handler in
`pc_lick_logger.py`, so a raised read error propagates out of the loop
(`none`); otherwise the body runs. -/
def pcStep (ra : Int) (st : PCState) (i : PCInput) : Option (PCState × List (Act PCRec)) :=
  match i.read with
  | ReadResult.error => none
  | ReadResult.empty => some (pcStepCore ra st none i.tCheck i.tOpen)
  | ReadResult.data l => some (pcStepCore ra st (some l) i.tCheck i.tOpen)

/-- The loop over a list of iteration inputs; an uncaught read error ends the
run (the `finally` block then closes the current handle, which moves no rows). -/
def pcRun (ra : Int) (st : PCState) : List PCInput → PCState × List (Act PCRec)
  | [] => (st, [])
  | i :: rest =>
    match pcStep ra st i with
    | none => (st, [])
    | some p =>
      let r := pcRun ra p.1 rest
      (r.1, p.2 ++ r.2)

/-- The state right after startup's `open_csv` (line 70): no closed file yet,
the open file holds the header, the counter is 0. -/
def pcInit (t0 : Int) : PCState :=
  { closedFiles := [], current := [PCRow.header], openedAt := t0, lickCount := 0 }

/-- All output files of the run: the closed ones and the one still open. -/
def allFiles (st : PCState) : List (List PCRow) :=
  st.closedFiles ++ [st.current]

/-- The event rows of one file (the header row dropped). -/
def eventsOf (f : List PCRow) : List (Nat × Nat) :=
  f.filterMap fun r =>
    match r with
    | PCRow.header => none
    | PCRow.event t n => some (t, n)

/-- The device timestamps of the lines the run accepts, in arrival order;
inputs after an uncaught read error are never processed. -/
def pcAccepted : List PCInput → List Nat
  | [] => []
  | i :: rest =>
    match i.read with
    | ReadResult.error => []
    | ReadResult.empty => pcAccepted rest
    | ReadResult.data l =>
      match pcExtract l with
      | some ts => ts :: pcAccepted rest
      | none => pcAccepted rest

/-- Pair each timestamp with its sequence number, counting on from `k`. -/
def numberFrom (k : Nat) : List Nat → List (Nat × Nat)
  | [] => []
  | t :: rest => (t, k + 1) :: numberFrom (k + 1) rest

/-! ### The ingestion loop of `serial_to_csv_rotating.py` (lines 85–122) -/

/-- A CSV row of `serial_to_csv_rotating.py`: the header
`iso_time, device_timestamp_ms, cadena` or an event row. -/
inductive SRow where
  | header
  | event (iso : Int) (ts : List Char) (cad : List Char)
deriving DecidableEq, Repr

/-- The record of one `writer.writerow(row)`. -/
abbrev SRec := Int × List Char × List Char

/-- The session state of `serial_to_csv_rotating.main`'s loop: the files
already closed, the open file's rows and the stored `rotate_after` deadline. -/
structure SerState where
  closedFiles : List (List SRow)
  current : List SRow
  deadline : Int
deriving DecidableEq, Repr

/-- One loop iteration's inputs: the read result and the `datetime.now()`
samples taken for the row's `iso_time` (line 109), for the rotation check
(line 116) and inside `new_csv_writer` (line 43) when a rotation opens. -/
structure SerInput where
  read : ReadResult
  tRow : Int
  tCheck : Int
  tOpen : Int
deriving DecidableEq, Repr

/-- Lines 98–113: a non-empty read is decoded, stripped and parsed; an
accepted line's row `[now, ts_str, cadena]` is written and flushed. -/
def serIngest (st : SerState) (i : SerInput) : SerState × List (Act SRec) :=
  match i.read with
  | ReadResult.data l =>
    match parse_line (strip l) with
    | some p =>
      ({ st with current := st.current ++ [SRow.event i.tRow p.1 p.2] },
       [Act.write (i.tRow, p.1, p.2), Act.flush])
    | none => (st, [])
  | _ => (st, [])

/-- Lines 115–122: if `datetime.now() >= rotate_after`, close the current
file (best effort) and call `new_csv_writer`, which opens a fresh file,
writes and flushes the header and records its open instant `created_at`;
the new deadline is `created_at + timedelta(minutes=period)`. -/
def serRotate (period : Int) (st : SerState) (tCheck tOpen : Int) : SerState × List (Act SRec) :=
  if st.deadline ≤ tCheck then
    ({ closedFiles := st.closedFiles ++ [st.current], current := [SRow.header],
       deadline := tOpen + period },
     [Act.close, Act.writeHeader, Act.flush])
  else (st, [])

/-- One full iteration of the `while True` body: a raised read error is
caught, printed, followed by `time.sleep(0.5)` and `continue` — which also
skips that iteration's rotation check. -/
def serStep (period : Int) (st : SerState) (i : SerInput) : SerState × List (Act SRec) :=
  match i.read with
  | ReadResult.error => (st, [Act.logError, Act.sleepShort])
  | _ =>
    let p := serIngest st i
    let q := serRotate period p.1 i.tCheck i.tOpen
    (q.1, p.2 ++ q.2)

/-- The loop over a list of iteration inputs; no read result ends it. -/
def serRun (period : Int) (st : SerState) : List SerInput → SerState × List (Act SRec)
  | [] => (st, [])
  | i :: rest =>
    let p := serStep period st i
    let r := serRun period p.1 rest
    (r.1, p.2 ++ r.2)

/-- The state right after startup's `new_csv_writer` (lines 85–86). -/
def serInit (t0 period : Int) : SerState :=
  { closedFiles := [], current := [SRow.header], deadline := t0 + period }

/-- All output files of the run: the closed ones and the one still open. -/
def allFilesS (st : SerState) : List (List SRow) :=
  st.closedFiles ++ [st.current]

/-- The event rows of one file (the header row dropped). -/
def seventsOf (f : List SRow) : List SRec :=
  f.filterMap fun r =>
    match r with
    | SRow.header => none
    | SRow.event a b c => some (a, b, c)

/-- The records of the lines the run accepts, in arrival order. -/
def serAccepted : List SerInput → List SRec
  | [] => []
  | i :: rest =>
    match i.read with
    | ReadResult.data l =>
      match parse_line (strip l) with
      | some p => (i.tRow, p.1, p.2) :: serAccepted rest
      | none => serAccepted rest
    | _ => serAccepted rest

/-! ### Claim C3: the positional extractor -/

/-- `parse_line` characterised: its two early-exit empty tests are subsumed
by the split of the stripped line. -/
lemma parse_line_eq (line : List Char) :
    parse_line line =
      match splitWs1 (strip line) with
      | [t, r] => if isPyFloat t then some (t, r) else none
      | _ => none := by
  unfold parse_line
  by_cases h1 : line = []
  · subst h1; rfl
  · simp only [if_neg h1]
    by_cases h2 : strip line = []
    · rw [h2]; rfl
    · rw [if_neg h2]

/-- C3: a line given to the positional extractor is accepted exactly when it
splits on the first whitespace run into two parts with a numeric (in Python's
`float` sense) leading token, and then yields that token and the untouched
remainder; `"1000 hello world"` yields `("1000", "hello world")`, while
`"abc def"` (non-numeric leading token) and `"onlyonetoken"` (wrong arity)
are rejected. -/
theorem positional_extractor_correct :
    parse_line (chars "1000 hello world") = some (chars "1000", chars "hello world")
  ∧ parse_line (chars "abc def") = none
  ∧ parse_line (chars "onlyonetoken") = none
  ∧ ∀ s t r, parse_line s = some (t, r) ↔
      splitWs1 (strip s) = [t, r] ∧ isPyFloat t = true := by
  refine ⟨by decide, by decide, by decide, ?_⟩
  intro s t r
  rw [parse_line_eq]
  constructor
  · intro h
    split at h
    next t' r' heq =>
      split at h
      next hf =>
        obtain ⟨rfl, rfl⟩ := Option.some.inj h |> Prod.mk.inj
        exact ⟨heq, hf⟩
      next => exact absurd h (by simp)
    next => exact absurd h (by simp)
  · rintro ⟨h1, h2⟩
    rw [h1]
    simp [h2]

/-! ### Claim C4: the token-anchored extractor -/

/-- The line holds, somewhere, a non-empty digit run immediately followed by
the literal `\tlick\t` — what `LICK_RE.search` looks for. -/
def ContainsLickPat (s : List Char) : Prop :=
  ∃ a d b, s = a ++ d ++ markerChars ++ b ∧ d ≠ [] ∧ d.all isAsciiDigit = true

lemma listStarts_iff (p : List Char) : ∀ s, listStarts p s = true ↔ ∃ b, s = p ++ b := by
  induction p with
  | nil => intro s; simp [listStarts]
  | cons a as ih =>
    intro s
    cases s with
    | nil => simp [listStarts]
    | cons b bs => simp [listStarts, ih bs, eq_comm (a := a)]

lemma all_takeWhile (p : Char → Bool) (l : List Char) : (l.takeWhile p).all p = true := by
  induction l with
  | nil => rfl
  | cons a l ih =>
    rw [List.takeWhile_cons]
    by_cases h : p a = true
    · simp [h, ih]
    · simp [h]

lemma takeWhile_append_all (p : Char → Bool) (d x : List Char) (h : d.all p = true) :
    (d ++ x).takeWhile p = d ++ x.takeWhile p := by
  induction d with
  | nil => simp
  | cons a l ih =>
    rw [List.all_cons, Bool.and_eq_true] at h
    simp [List.takeWhile_cons, h.1, ih h.2]

lemma dropWhile_append_all (p : Char → Bool) (d x : List Char) (h : d.all p = true) :
    (d ++ x).dropWhile p = x.dropWhile p := by
  induction d with
  | nil => simp
  | cons a l ih =>
    rw [List.all_cons, Bool.and_eq_true] at h
    simp [List.dropWhile_cons, h.1, ih h.2]

/-- A match right at the start: a non-empty digit run followed by the marker. -/
lemma lickMatchAt_eq (d b : List Char) (hd : d ≠ []) (hall : d.all isAsciiDigit = true) :
    lickMatchAt (d ++ markerChars ++ b) = some (digitsVal d) := by
  have ht : (d ++ (markerChars ++ b)).takeWhile isAsciiDigit = d := by
    rw [takeWhile_append_all _ _ _ hall]
    simp [markerChars, List.takeWhile_cons, isAsciiDigit]
  have hdr : (d ++ (markerChars ++ b)).dropWhile isAsciiDigit = markerChars ++ b := by
    rw [dropWhile_append_all _ _ _ hall]
    simp [markerChars, List.dropWhile_cons, isAsciiDigit]
  unfold lickMatchAt
  rw [List.append_assoc, ht, hdr, if_neg hd, if_pos ((listStarts_iff _ _).mpr ⟨b, rfl⟩)]

lemma lickMatchAt_some (s : List Char) (n : Nat) (hm : lickMatchAt s = some n) :
    s.takeWhile isAsciiDigit ≠ [] ∧
      listStarts markerChars (s.dropWhile isAsciiDigit) = true := by
  simp only [lickMatchAt] at hm
  by_cases h1 : s.takeWhile isAsciiDigit = []
  · rw [if_pos h1] at hm; exact absurd hm (by simp)
  · rw [if_neg h1] at hm
    by_cases h2 : listStarts markerChars (s.dropWhile isAsciiDigit) = true
    · exact ⟨h1, h2⟩
    · rw [if_neg h2] at hm; exact absurd hm (by simp)

lemma lickSearch_some_contains : ∀ s, (lickSearch s).isSome = true → ContainsLickPat s := by
  intro s
  induction s with
  | nil => intro h; simp [lickSearch] at h
  | cons c rest ih =>
    intro h
    rw [lickSearch] at h
    cases hm : lickMatchAt (c :: rest) with
    | some n =>
      obtain ⟨hne, hst⟩ := lickMatchAt_some _ _ hm
      obtain ⟨b, hb⟩ := (listStarts_iff _ _).mp hst
      refine ⟨[], (c :: rest).takeWhile isAsciiDigit, b, ?_, hne, all_takeWhile _ _⟩
      have hsplit := List.takeWhile_append_dropWhile (p := isAsciiDigit) (l := c :: rest)
      rw [hb] at hsplit
      rw [List.nil_append, List.append_assoc]
      exact hsplit.symm
    | none =>
      rw [hm] at h
      obtain ⟨a, d, b, h1, h2, h3⟩ := ih h
      exact ⟨c :: a, d, b, by simp [h1], h2, h3⟩

lemma contains_lickSearch_some :
    ∀ a d b : List Char, d ≠ [] → d.all isAsciiDigit = true →
      (lickSearch (a ++ d ++ markerChars ++ b)).isSome = true := by
  intro a
  induction a with
  | nil =>
    intro d b hd hall
    cases d with
    | nil => exact absurd rfl hd
    | cons dc dt =>
      have hm := lickMatchAt_eq (dc :: dt) b hd hall
      rw [List.nil_append]
      rw [show (dc :: dt) ++ markerChars ++ b = dc :: (dt ++ (markerChars ++ b)) by simp]
      rw [lickSearch]
      rw [show dc :: (dt ++ (markerChars ++ b)) = (dc :: dt) ++ markerChars ++ b by simp] at *
      rw [hm]
      rfl
  | cons c a' ih =>
    intro d b hd hall
    rw [show (c :: a') ++ d ++ markerChars ++ b = c :: (a' ++ d ++ markerChars ++ b) by simp]
    rw [lickSearch]
    cases hm : lickMatchAt (c :: (a' ++ d ++ markerChars ++ b)) with
    | some n => rfl
    | none => exact ih d b hd hall

/-- C4: the token-anchored extractor accepts a line exactly when it holds a
numeric field immediately followed by the tab-delimited literal `lick`
marker somewhere in it; on `"x\t42\tlick\ty"` it extracts 42; a line with no
occurrence of the `\tlick\t` marker is rejected. -/
theorem token_extractor_correct :
    (∀ s, (lickSearch s).isSome = true ↔ ContainsLickPat s)
  ∧ lickSearch (chars "x\t42\tlick\ty") = some 42
  ∧ ∀ s, (∀ a b, s ≠ a ++ markerChars ++ b) → lickSearch s = none := by
  refine ⟨?_, by decide, ?_⟩
  · intro s
    constructor
    · exact lickSearch_some_contains s
    · rintro ⟨a, d, b, rfl, hd, hall⟩
      exact contains_lickSearch_some a d b hd hall
  · intro s h
    cases hv : lickSearch s with
    | none => rfl
    | some n =>
      obtain ⟨a, d, b, h1, h2, h3⟩ := lickSearch_some_contains s (by rw [hv]; rfl)
      exact absurd (by simp [h1]) (h (a ++ d) b)

/-! ### Claim C10: stripping before the regex search -/

lemma dropWhile_head_false (p : Char → Bool) :
    ∀ (l : List Char) c t, l.dropWhile p = c :: t → p c = false := by
  intro l
  induction l with
  | nil => intro c t h; simp at h
  | cons a l ih =>
    intro c t h
    rw [List.dropWhile_cons] at h
    by_cases ha : p a = true
    · rw [if_pos ha] at h; exact ih c t h
    · rw [if_neg ha] at h
      obtain ⟨rfl, -⟩ := List.cons.inj h
      exact Bool.eq_false_iff.mpr ha

/-- A non-empty stripped line never ends in whitespace. -/
lemma strip_getLast (s : List Char) (h : strip s ≠ []) :
    ∃ c, (strip s).getLast? = some c ∧ isSpaceChar c = false := by
  unfold strip at *
  cases hu : ((s.dropWhile isSpaceChar).reverse.dropWhile isSpaceChar) with
  | nil => rw [hu] at h; simp at h
  | cons c t =>
    refine ⟨c, ?_, dropWhile_head_false _ _ _ _ hu⟩
    rw [List.getLast?_reverse]
    rfl

lemma getLast?_append_right (l₁ : List Char) :
    ∀ l₂ : List Char, l₂ ≠ [] → (l₁ ++ l₂).getLast? = l₂.getLast? := by
  induction l₁ with
  | nil => intro l₂ _; rw [List.nil_append]
  | cons a l ih =>
    intro l₂ h2
    rw [List.cons_append]
    cases hl : l ++ l₂ with
    | nil => exact absurd (List.append_eq_nil.mp hl).2 h2
    | cons b t =>
      have hx := ih l₂ h2
      rw [hl] at hx
      rw [List.getLast?_cons_cons]
      exact hx

/-- C10: the token-anchored pipeline strips the decoded line before the regex
search, so the raw line `"123\tlick\t\n"` — which does contain the marker
pattern — is rejected, its marker's trailing tab having been stripped away;
in general any accepted line has, after stripping, some non-whitespace
character after the marker occurrence. -/
theorem strip_rejects_trailing_marker :
    lickSearch (chars "123\tlick\t\n") = some 123
  ∧ pcExtract (chars "123\tlick\t\n") = none
  ∧ ∀ s n, pcExtract s = some n →
      ∃ a d b, strip s = a ++ d ++ markerChars ++ b ∧ d ≠ [] ∧
        d.all isAsciiDigit = true ∧ ∃ c ∈ b, isSpaceChar c = false := by
  refine ⟨by decide, by decide, ?_⟩
  intro s n h
  have hsome : (lickSearch (strip s)).isSome = true := by
    unfold pcExtract at h; rw [h]; rfl
  obtain ⟨a, d, b, h1, h2, h3⟩ := lickSearch_some_contains _ hsome
  have hne : strip s ≠ [] := by
    rw [h1]
    intro hx
    rcases List.append_eq_nil.mp hx with ⟨hy, -⟩
    rcases List.append_eq_nil.mp hy with ⟨-, hz⟩
    exact absurd hz (by simp [markerChars])
  obtain ⟨c, hlast, hc⟩ := strip_getLast s hne
  cases b with
  | nil =>
    rw [h1, List.append_nil, getLast?_append_right _ _ (by simp [markerChars])] at hlast
    have : c = '\t' := by
      have : (markerChars.getLast? : Option Char) = some '\t' := by decide
      rw [this] at hlast
      exact (Option.some.inj hlast).symm
    rw [this] at hc
    exact absurd hc (by decide)
  | cons b0 bt =>
    rw [h1, getLast?_append_right _ _ (by simp)] at hlast
    exact ⟨a, d, b0 :: bt, h1, h2, h3,
      c, List.mem_of_mem_getLast? hlast, hc⟩

/-! ### Claims C1 and C2: the round-trip through the rotating sink -/

/-- The event rows of all the run's files, first file first. -/
def pcFileEvents (st : PCState) : List (Nat × Nat) :=
  ((allFiles st).map eventsOf).flatten

/-- The event rows of all the run's files, first file first. -/
def serFileEvents (st : SerState) : List SRec :=
  ((allFilesS st).map seventsOf).flatten

lemma pcFileEvents_append_event (st : PCState) (ts n : Nat) :
    pcFileEvents { st with lickCount := n, current := st.current ++ [PCRow.event ts n] }
      = pcFileEvents st ++ [(ts, n)] := by
  simp [pcFileEvents, allFiles, eventsOf, List.filterMap_append]

lemma pcRotate_fileEvents (ra : Int) (st : PCState) (tC tO : Int) :
    pcFileEvents (pcRotate ra st tC tO).1 = pcFileEvents st ∧
      (pcRotate ra st tC tO).1.lickCount = st.lickCount := by
  unfold pcRotate
  by_cases h : ra ≤ tC - st.openedAt
  · rw [if_pos h]
    exact ⟨by simp [pcFileEvents, allFiles, eventsOf], rfl⟩
  · rw [if_neg h]
    exact ⟨rfl, rfl⟩

lemma pcRun_cons_ok (ra : Int) (st : PCState) (i : PCInput) (rest : List PCInput)
    (p : PCState × List (Act PCRec)) (hp : pcStep ra st i = some p) :
    pcRun ra st (i :: rest)
      = ((pcRun ra p.1 rest).1, p.2 ++ (pcRun ra p.1 rest).2) := by
  conv_lhs => rw [pcRun]
  rw [hp]

/-- The pc run's files hold exactly the accepted events, numbered on from the
counter the state entered with. -/
lemma pcRun_fileEvents (ra : Int) :
    ∀ (inputs : List PCInput) (st : PCState),
      pcFileEvents (pcRun ra st inputs).1
        = pcFileEvents st ++ numberFrom st.lickCount (pcAccepted inputs) := by
  intro inputs
  induction inputs with
  | nil => intro st; simp [pcRun, pcAccepted, numberFrom]
  | cons i rest ih =>
    intro st
    cases hr : i.read with
    | error =>
      unfold pcRun
      simp [pcStep, hr, pcAccepted, numberFrom]
    | empty =>
      rw [pcRun_cons_ok ra st i rest (pcStepCore ra st none i.tCheck i.tOpen)
        (by simp [pcStep, hr])]
      have hcore : (pcStepCore ra st none i.tCheck i.tOpen).1
          = (pcRotate ra st i.tCheck i.tOpen).1 := rfl
      obtain ⟨he, hc⟩ := pcRotate_fileEvents ra st i.tCheck i.tOpen
      rw [ih, hcore, he, hc]
      simp [pcAccepted, hr]
    | data l =>
      cases hx : pcExtract l with
      | none =>
        rw [pcRun_cons_ok ra st i rest (pcStepCore ra st (some l) i.tCheck i.tOpen)
          (by simp [pcStep, hr])]
        have hcore : (pcStepCore ra st (some l) i.tCheck i.tOpen).1
            = (pcRotate ra (pcIngest st (some l)).1 i.tCheck i.tOpen).1 := rfl
        have hing : pcIngest st (some l) = (st, []) := by simp [pcIngest, hx]
        obtain ⟨he, hc⟩ := pcRotate_fileEvents ra st i.tCheck i.tOpen
        rw [ih, hcore, hing, he, hc]
        simp [pcAccepted, hr, hx]
      | some ts =>
        rw [pcRun_cons_ok ra st i rest (pcStepCore ra st (some l) i.tCheck i.tOpen)
          (by simp [pcStep, hr])]
        have hing : (pcIngest st (some l)).1
            = { st with
                lickCount := st.lickCount + 1,
                current := st.current ++ [PCRow.event ts (st.lickCount + 1)] } := by
          simp [pcIngest, hx]
        have hcore : (pcStepCore ra st (some l) i.tCheck i.tOpen).1
            = (pcRotate ra (pcIngest st (some l)).1 i.tCheck i.tOpen).1 := rfl
        obtain ⟨he, hc⟩ := pcRotate_fileEvents ra (pcIngest st (some l)).1 i.tCheck i.tOpen
        rw [ih, hcore, he, hc, hing, pcFileEvents_append_event]
        simp [pcAccepted, hr, hx, numberFrom, List.append_assoc]

lemma serFileEvents_append_event (st : SerState) (a : Int) (t c : List Char) :
    serFileEvents { st with current := st.current ++ [SRow.event a t c] }
      = serFileEvents st ++ [(a, t, c)] := by
  simp [serFileEvents, allFilesS, seventsOf, List.filterMap_append]

lemma serRotate_fileEvents (p' : Int) (st : SerState) (tC tO : Int) :
    serFileEvents (serRotate p' st tC tO).1 = serFileEvents st := by
  unfold serRotate
  by_cases h : st.deadline ≤ tC
  · rw [if_pos h]
    simp [serFileEvents, allFilesS, seventsOf]
  · rw [if_neg h]

lemma serRun_cons (p' : Int) (st : SerState) (i : SerInput) (rest : List SerInput) :
    serRun p' st (i :: rest)
      = ((serRun p' (serStep p' st i).1 rest).1,
         (serStep p' st i).2 ++ (serRun p' (serStep p' st i).1 rest).2) := by
  conv_lhs => rw [serRun]

/-- The serial run's files hold exactly the accepted records, in order. -/
lemma serRun_fileEvents (p' : Int) :
    ∀ (sins : List SerInput) (st : SerState),
      serFileEvents (serRun p' st sins).1 = serFileEvents st ++ serAccepted sins := by
  intro sins
  induction sins with
  | nil => intro st; simp [serRun, serAccepted]
  | cons i rest ih =>
    intro st
    rw [serRun_cons]
    cases hr : i.read with
    | error =>
      have hstep : (serStep p' st i).1 = st := by simp [serStep, hr]
      rw [ih, hstep]
      simp [serAccepted, hr]
    | empty =>
      have hstep : (serStep p' st i).1 = (serRotate p' st i.tCheck i.tOpen).1 := by
        simp [serStep, hr, serIngest]
      rw [ih, hstep, serRotate_fileEvents]
      simp [serAccepted, hr]
    | data l =>
      cases hx : parse_line (strip l) with
      | none =>
        have hstep : (serStep p' st i).1 = (serRotate p' st i.tCheck i.tOpen).1 := by
          simp [serStep, hr, serIngest, hx]
        rw [ih, hstep, serRotate_fileEvents]
        simp [serAccepted, hr, hx]
      | some pr =>
        have hing : (serIngest st i).1
            = { st with current := st.current ++ [SRow.event i.tRow pr.1 pr.2] } := by
          simp [serIngest, hr, hx]
        have hstep : (serStep p' st i).1
            = (serRotate p' (serIngest st i).1 i.tCheck i.tOpen).1 := by
          simp [serStep, hr]
        rw [ih, hstep, serRotate_fileEvents, hing, serFileEvents_append_event]
        simp [serAccepted, hr, hx, List.append_assoc]

lemma numberFrom_map_snd : ∀ (xs : List Nat) (k : Nat),
    (numberFrom k xs).map Prod.snd = List.range' (k + 1) xs.length := by
  intro xs
  induction xs with
  | nil => intro k; rfl
  | cons t ts ih =>
    intro k
    show (t, k + 1).snd :: (numberFrom (k + 1) ts).map Prod.snd = _
    rw [ih (k + 1)]
    rfl

lemma numberFrom_nodup (k : Nat) (xs : List Nat) : (numberFrom k xs).Nodup := by
  have h : ((numberFrom k xs).map Prod.snd).Nodup := by
    rw [numberFrom_map_snd]
    exact List.nodup_range' (k + 1) xs.length 1 Nat.one_pos
  exact h.of_map

/-- C1: round-trip through the rotating sink, for both loggers.  The event
rows of all output files of a run, first file first, are exactly the
accepted events in arrival order (for the pc logger, paired with their
sequence numbers) — so no accepted event is lost at a rotation boundary;
and the total number of copies of any record across all files equals its
count among the expected records, which for the pc logger is exactly one
(its expected records are pairwise distinct), so each accepted event lands
in exactly one file, never duplicated. -/
theorem rotating_sink_roundtrip :
    (∀ (ra t0 : Int) (inputs : List PCInput),
        pcFileEvents (pcRun ra (pcInit t0) inputs).1 = numberFrom 0 (pcAccepted inputs))
  ∧ (∀ (ra t0 : Int) (inputs : List PCInput) (e : Nat × Nat),
        (((allFiles (pcRun ra (pcInit t0) inputs).1).map eventsOf).map
            (fun f => f.count e)).sum
          = (numberFrom 0 (pcAccepted inputs)).count e)
  ∧ (∀ inputs : List PCInput, (numberFrom 0 (pcAccepted inputs)).Nodup)
  ∧ (∀ (p' t0 : Int) (sins : List SerInput),
        serFileEvents (serRun p' (serInit t0 p') sins).1 = serAccepted sins)
  ∧ (∀ (p' t0 : Int) (sins : List SerInput) (e : SRec),
        (((allFilesS (serRun p' (serInit t0 p') sins).1).map seventsOf).map
            (fun f => f.count e)).sum
          = (serAccepted sins).count e) := by
  have hpc : ∀ (ra t0 : Int) (inputs : List PCInput),
      pcFileEvents (pcRun ra (pcInit t0) inputs).1 = numberFrom 0 (pcAccepted inputs) := by
    intro ra t0 inputs
    rw [pcRun_fileEvents]
    have : pcFileEvents (pcInit t0) = [] := rfl
    rw [this, List.nil_append]
    rfl
  have hser : ∀ (p' t0 : Int) (sins : List SerInput),
      serFileEvents (serRun p' (serInit t0 p') sins).1 = serAccepted sins := by
    intro p' t0 sins
    rw [serRun_fileEvents]
    rfl
  refine ⟨hpc, ?_, fun inputs => numberFrom_nodup 0 (pcAccepted inputs), hser, ?_⟩
  · intro ra t0 inputs e
    have h1 := hpc ra t0 inputs
    unfold pcFileEvents at h1
    rw [← h1, ← List.count_flatten]
  · intro p' t0 sins e
    have h1 := hser p' t0 sins
    unfold serFileEvents at h1
    rw [← h1, ← List.count_flatten]

/-- C2: the sequence numbers on the event rows of all of a pc run's files,
read first file first, are exactly 1, 2, 3, …: the first accepted event gets
1, each next one the previous number plus 1, and no rotation resets or skips
the counter. -/
theorem session_counter_sequential :
    ∀ (ra t0 : Int) (inputs : List PCInput),
      (pcFileEvents (pcRun ra (pcInit t0) inputs).1).map Prod.snd
        = List.range' 1 (pcAccepted inputs).length := by
  intro ra t0 inputs
  have h : pcFileEvents (pcRun ra (pcInit t0) inputs).1
      = numberFrom 0 (pcAccepted inputs) := by
    rw [pcRun_fileEvents]
    rfl
  rw [h, numberFrom_map_snd]

/-! ### Claim C5: a flush follows every event write -/

/-- Is this action an event-row write (the action that must be flushed)? -/
def needsFlush {ρ : Type} (a : Act ρ) : Bool :=
  match a with
  | Act.write _ => true
  | _ => false

/-- Does the trace start with a flush? -/
def startsFlush {ρ : Type} : List (Act ρ) → Bool
  | Act.flush :: _ => true
  | _ => false

/-- Every event-row write in the trace is immediately followed by a flush. -/
def okTrace {ρ : Type} : List (Act ρ) → Bool
  | [] => true
  | a :: rest => (!needsFlush a || startsFlush rest) && okTrace rest

lemma startsFlush_append {ρ : Type} (rest b : List (Act ρ)) (h : startsFlush rest = true) :
    startsFlush (rest ++ b) = true := by
  cases rest with
  | nil => simp [startsFlush] at h
  | cons x t => cases x <;> simp [startsFlush] at h ⊢

lemma okTrace_append {ρ : Type} :
    ∀ a b : List (Act ρ), okTrace a = true → okTrace b = true → okTrace (a ++ b) = true := by
  intro a
  induction a with
  | nil => intro b _ hb; simpa
  | cons x rest ih =>
    intro b ha hb
    rw [okTrace, Bool.and_eq_true] at ha
    rw [List.cons_append, okTrace, Bool.and_eq_true]
    refine ⟨?_, ih b ha.2 hb⟩
    have ha1 := ha.1
    rw [Bool.or_eq_true] at ha1 ⊢
    rcases ha1 with h | h
    · exact Or.inl h
    · exact Or.inr (startsFlush_append rest b h)

lemma okTrace_get {ρ : Type} :
    ∀ l : List (Act ρ), okTrace l = true →
      ∀ (i : Nat) (r : ρ), l.get? i = some (Act.write r) → l.get? (i + 1) = some Act.flush := by
  intro l
  induction l with
  | nil => intro _ i r h; simp at h
  | cons x rest ih =>
    intro hok i r hw
    rw [okTrace, Bool.and_eq_true] at hok
    cases i with
    | zero =>
      rw [List.get?_cons_zero] at hw
      have hx : x = Act.write r := Option.some.inj hw
      subst hx
      have h1 : startsFlush rest = true := by
        have hok1 := hok.1
        rw [Bool.or_eq_true] at hok1
        rcases hok1 with h | h
        · exact absurd h (by simp [needsFlush])
        · exact h
      cases rest with
      | nil => simp [startsFlush] at h1
      | cons y t =>
        cases y <;> simp [startsFlush] at h1
        rfl
    | succ j => exact ih hok.2 j r hw

lemma okTrace_pcIngest (st : PCState) (line : Option (List Char)) :
    okTrace (pcIngest st line).2 = true := by
  cases line with
  | none => rfl
  | some l =>
    cases hx : pcExtract l with
    | none => simp [pcIngest, hx, okTrace]
    | some ts => simp [pcIngest, hx, okTrace, needsFlush, startsFlush]

lemma okTrace_pcStepCore (ra : Int) (st : PCState) (line : Option (List Char))
    (tC tO : Int) : okTrace (pcStepCore ra st line tC tO).2 = true := by
  have hrot : ∀ st' : PCState, okTrace (pcRotate ra st' tC tO).2 = true := by
    intro st'
    unfold pcRotate
    by_cases h : ra ≤ tC - st'.openedAt
    · rw [if_pos h]; rfl
    · rw [if_neg h]; rfl
  show okTrace ((pcIngest st line).2 ++ (pcRotate ra (pcIngest st line).1 tC tO).2) = true
  exact okTrace_append _ _ (okTrace_pcIngest st line) (hrot _)

lemma okTrace_pcRun (ra : Int) :
    ∀ (inputs : List PCInput) (st : PCState), okTrace (pcRun ra st inputs).2 = true := by
  intro inputs
  induction inputs with
  | nil => intro st; rfl
  | cons i rest ih =>
    intro st
    cases hr : i.read with
    | error =>
      have h : pcRun ra st (i :: rest) = (st, []) := by
        conv_lhs => rw [pcRun]
        rw [show pcStep ra st i = none by simp [pcStep, hr]]
      rw [h]
      rfl
    | empty =>
      rw [pcRun_cons_ok ra st i rest (pcStepCore ra st none i.tCheck i.tOpen)
        (by simp [pcStep, hr])]
      exact okTrace_append _ _ (okTrace_pcStepCore ra st none i.tCheck i.tOpen) (ih _)
    | data l =>
      rw [pcRun_cons_ok ra st i rest (pcStepCore ra st (some l) i.tCheck i.tOpen)
        (by simp [pcStep, hr])]
      exact okTrace_append _ _ (okTrace_pcStepCore ra st (some l) i.tCheck i.tOpen) (ih _)

lemma okTrace_serIngest (st : SerState) (i : SerInput) :
    okTrace (serIngest st i).2 = true := by
  cases hr : i.read with
  | error => simp [serIngest, hr, okTrace]
  | empty => simp [serIngest, hr, okTrace]
  | data l =>
    cases hx : parse_line (strip l) with
    | none => simp [serIngest, hr, hx, okTrace]
    | some pr => simp [serIngest, hr, hx, okTrace, needsFlush, startsFlush]

lemma okTrace_serStep (p' : Int) (st : SerState) (i : SerInput) :
    okTrace (serStep p' st i).2 = true := by
  have hrot : ∀ st' : SerState, okTrace (serRotate p' st' i.tCheck i.tOpen).2 = true := by
    intro st'
    unfold serRotate
    by_cases h : st'.deadline ≤ i.tCheck
    · rw [if_pos h]; rfl
    · rw [if_neg h]; rfl
  cases hr : i.read with
  | error => simp [serStep, hr, okTrace, needsFlush, startsFlush]
  | empty =>
    have h : (serStep p' st i).2
        = (serIngest st i).2 ++ (serRotate p' (serIngest st i).1 i.tCheck i.tOpen).2 := by
      simp [serStep, hr]
    rw [h]
    exact okTrace_append _ _ (okTrace_serIngest st i) (hrot _)
  | data l =>
    have h : (serStep p' st i).2
        = (serIngest st i).2 ++ (serRotate p' (serIngest st i).1 i.tCheck i.tOpen).2 := by
      simp [serStep, hr]
    rw [h]
    exact okTrace_append _ _ (okTrace_serIngest st i) (hrot _)

lemma okTrace_serRun (p' : Int) :
    ∀ (sins : List SerInput) (st : SerState), okTrace (serRun p' st sins).2 = true := by
  intro sins
  induction sins with
  | nil => intro st; rfl
  | cons i rest ih =>
    intro st
    rw [serRun_cons]
    exact okTrace_append _ _ (okTrace_serStep p' st i) (ih _)

/-- C5: in both loggers, every accepted event's row write is immediately
followed by a flush of the open handle in the run's action trace, so event
`n` is flushed before any later event is processed. -/
theorem append_then_flush :
    (∀ (ra t0 : Int) (inputs : List PCInput) (i : Nat) (r : PCRec),
        ((pcRun ra (pcInit t0) inputs).2).get? i = some (Act.write r) →
        ((pcRun ra (pcInit t0) inputs).2).get? (i + 1) = some Act.flush)
  ∧ (∀ (p' t0 : Int) (sins : List SerInput) (i : Nat) (r : SRec),
        ((serRun p' (serInit t0 p') sins).2).get? i = some (Act.write r) →
        ((serRun p' (serInit t0 p') sins).2).get? (i + 1) = some Act.flush) := by
  constructor
  · intro ra t0 inputs i r hw
    exact okTrace_get _ (okTrace_pcRun ra inputs (pcInit t0)) i r hw
  · intro p' t0 sins i r hw
    exact okTrace_get _ (okTrace_serRun p' sins (serInit t0 p')) i r hw

/-- A concrete run exercising `append_then_flush`: one accepted line, whose
write at index 0 is followed by the flush at index 1. -/
theorem append_then_flush_witness :
    ((pcRun 900 (pcInit 0) [⟨ReadResult.data (chars "7\tlick\tz"), 1, 1⟩]).2).get? 0
      = some (Act.write ((7 : Nat), (1 : Nat)))
  ∧ ((pcRun 900 (pcInit 0) [⟨ReadResult.data (chars "7\tlick\tz"), 1, 1⟩]).2).get? 1
      = some Act.flush := by
  refine ⟨by decide, ?_⟩
  exact append_then_flush.1 900 0 [⟨ReadResult.data (chars "7\tlick\tz"), 1, 1⟩]
    0 (7, 1) (by decide)

/-! ### Claim C6: the rotation boundary with no pending event -/

/-- C6: in both loggers, when the rotation deadline has been reached and the
read returned nothing, the iteration still closes the current file and opens
a fresh one holding only the header row, the session state (`lick_count`) is
unchanged, and the next deadline is anchored at the new file's open instant
plus exactly one rotation period (for the pc logger the anchor `opened_at`
becomes the open instant, so the next rotation fires at `opened_at + ra`;
the serial logger stores `rotate_after = created_at + period` directly). -/
theorem rotation_boundary :
    (∀ (ra : Int) (st : PCState) (tC tO : Int), ra ≤ tC - st.openedAt →
        pcStepCore ra st none tC tO
          = (PCState.mk (st.closedFiles ++ [st.current]) [PCRow.header] tO st.lickCount,
             [Act.sleepShort, Act.flush, Act.close, Act.writeHeader]))
  ∧ (∀ (p' : Int) (st : SerState) (i : SerInput), i.read = ReadResult.empty →
        st.deadline ≤ i.tCheck →
        serStep p' st i
          = (SerState.mk (st.closedFiles ++ [st.current]) [SRow.header] (i.tOpen + p'),
             [Act.close, Act.writeHeader, Act.flush])) := by
  constructor
  · intro ra st tC tO h
    show ((pcRotate ra st tC tO).1, [Act.sleepShort] ++ (pcRotate ra st tC tO).2) = _
    unfold pcRotate
    rw [if_pos h]
    rfl
  · intro p' st i hr h
    have hstep : serStep p' st i
        = ((serRotate p' st i.tCheck i.tOpen).1, (serRotate p' st i.tCheck i.tOpen).2) := by
      simp [serStep, hr, serIngest]
    rw [hstep]
    unfold serRotate
    rw [if_pos h]

/-- A concrete rotation boundary exercising `rotation_boundary`: deadline
reached with an empty read; both loggers produce a header-only new file and
keep the session state. -/
theorem rotation_boundary_witness :
    pcStepCore 60 (pcInit 0) none 60 61
      = (PCState.mk [[PCRow.header]] [PCRow.header] 61 0,
         [Act.sleepShort, Act.flush, Act.close, Act.writeHeader])
  ∧ serStep 60 (serInit 0 60) ⟨ReadResult.empty, 59, 60, 61⟩
      = (SerState.mk [[SRow.header]] [SRow.header] (61 + 60),
         [Act.close, Act.writeHeader, Act.flush]) :=
  ⟨rotation_boundary.1 60 (pcInit 0) 60 61 (by decide),
   rotation_boundary.2 60 (serInit 0 60) ⟨ReadResult.empty, 59, 60, 61⟩ rfl (by decide)⟩

/-! ### Claim C7: same-second filename collisions on open

The output directory is modelled as an association list from filename to row
list; Python's `open(path, "w")` truncates an existing file of that name and
creates it otherwise, which is `setFile`. -/

/-- Mode-`"w"` open plus header write: replace the content of `name` if it
exists, append the file otherwise. -/
def setFile {α : Type} (fs : List (String × α)) (name : String) (content : α) :
    List (String × α) :=
  match fs with
  | [] => [(name, content)]
  | (n, c) :: rest =>
    if n = name then (n, content) :: rest else (n, c) :: setFile rest name content

/-- Look a file up by name. -/
def getFile {α : Type} (fs : List (String × α)) (name : String) : Option α :=
  match fs with
  | [] => none
  | (n, c) :: rest => if n = name then some c else getFile rest name

/-- The filename `open_csv` builds from the second-resolution stamp
(line 39–40): `licks_<stamp>.csv`. -/
def pcFname (stamp : String) : String := "licks_" ++ stamp ++ ".csv"

/-- `open_csv` (lines 37–45) on the directory state: builds the stamped name
and opens it with mode `"w"` — truncating any existing file of that name —
then writes the header row. -/
def open_csv (fs : List (String × List PCRow)) (stamp : String) :
    List (String × List PCRow) :=
  setFile fs (pcFname stamp) [PCRow.header]

/-- The filename `new_csv_writer` builds (line 44): `log_<stamp>.csv`. -/
def serFname (stamp : String) : String := "log_" ++ stamp ++ ".csv"

/-- `new_csv_writer` (lines 42–51) on the directory state: mode-`"w"` open of
the stamped name plus header write. -/
def new_csv_writer (fs : List (String × List SRow)) (stamp : String) :
    List (String × List SRow) :=
  setFile fs (serFname stamp) [SRow.header]

/-- C7 counterexample: opening within the same second as an existing file
silently truncates it — the prior rows are gone, no disambiguated name is
created, in both loggers. -/
theorem same_second_open_overwrites :
    open_csv [(pcFname "20240101_120000", [PCRow.header, PCRow.event 5 1])] "20240101_120000"
      = [(pcFname "20240101_120000", [PCRow.header])]
  ∧ new_csv_writer
        [(serFname "20240101_120000", [SRow.header, SRow.event 1 (chars "2") (chars "x")])]
        "20240101_120000"
      = [(serFname "20240101_120000", [SRow.header])] := by
  exact ⟨rfl, rfl⟩

lemma getFile_setFile {α : Type} :
    ∀ (fs : List (String × α)) (name : String) (content : α),
      getFile (setFile fs name content) name = some content := by
  intro fs name content
  induction fs with
  | nil => simp [setFile, getFile]
  | cons p rest ih =>
    obtain ⟨n, c⟩ := p
    by_cases h : n = name
    · simp [setFile, getFile, h]
    · simp [setFile, getFile, h, ih]

lemma setFile_keys {α : Type} :
    ∀ (fs : List (String × α)) (name : String) (content old : α),
      getFile fs name = some old →
        (setFile fs name content).map Prod.fst = fs.map Prod.fst := by
  intro fs name content
  induction fs with
  | nil => intro old h; simp [getFile] at h
  | cons p rest ih =>
    obtain ⟨n, c⟩ := p
    intro old h
    by_cases hn : n = name
    · simp [setFile, hn]
    · rw [getFile, if_neg hn] at h
      simp [setFile, hn, ih old h]

/-- C7 amended: when the stamped name collides with an existing file, the
open truncates that file to a fresh header and creates no new name — the
directory's name list is unchanged; nothing refuses or disambiguates. -/
theorem open_truncates_on_collision :
    (∀ (fs : List (String × List PCRow)) (stamp : String) (old : List PCRow),
        getFile fs (pcFname stamp) = some old →
          getFile (open_csv fs stamp) (pcFname stamp) = some [PCRow.header]
          ∧ (open_csv fs stamp).map Prod.fst = fs.map Prod.fst)
  ∧ (∀ (fs : List (String × List SRow)) (stamp : String) (old : List SRow),
        getFile fs (serFname stamp) = some old →
          getFile (new_csv_writer fs stamp) (serFname stamp) = some [SRow.header]
          ∧ (new_csv_writer fs stamp).map Prod.fst = fs.map Prod.fst) := by
  constructor
  · intro fs stamp old h
    exact ⟨getFile_setFile fs (pcFname stamp) [PCRow.header],
      setFile_keys fs (pcFname stamp) [PCRow.header] old h⟩
  · intro fs stamp old h
    exact ⟨getFile_setFile fs (serFname stamp) [SRow.header],
      setFile_keys fs (serFname stamp) [SRow.header] old h⟩

/-- A concrete collision exercising `open_truncates_on_collision`. -/
theorem open_truncates_on_collision_witness :
    getFile (open_csv [(pcFname "s", [PCRow.header, PCRow.event 9 1])] "s") (pcFname "s")
      = some [PCRow.header]
  ∧ (open_csv [(pcFname "s", [PCRow.header, PCRow.event 9 1])] "s").map Prod.fst
      = [pcFname "s"] := by
  have h := open_truncates_on_collision.1
    [(pcFname "s", [PCRow.header, PCRow.event 9 1])] "s" [PCRow.header, PCRow.event 9 1] rfl
  exact ⟨h.1, h.2⟩

/-! ### Claim C8: startup failure diagnostics

Startup is modelled as a function of the configured port (if any), the list
of detected ports, and which port identifiers can actually be opened.  It
returns either `Sum.inl (exit code, messages printed)` for a fatal exit or
`Sum.inr (opened port, messages printed)`. -/

/-- A detected serial port: its device identifier and description. -/
structure PortInfo where
  device : String
  description : String
deriving DecidableEq, Repr

/-- Strict order on `Bool` with `false < true` (Python's tuple keys). -/
def boolLT (x y : Bool) : Bool := !x && y

/-- Lexicographic comparison of character lists (Python string `<`). -/
def charListLE : List Char → List Char → Bool
  | [], _ => true
  | _ :: _, [] => false
  | a :: as, b :: bs => if a = b then charListLE as bs else decide (a < b)

/-- The sort key of `guess_port` (serial_to_csv_rotating.py line 18):
the tuple `("ACM" not in device, "USB" not in device, device)`. -/
def portKeyLE (a b : PortInfo) : Bool :=
  let a1 := !listHas (chars "ACM") (chars a.device)
  let b1 := !listHas (chars "ACM") (chars b.device)
  let a2 := !listHas (chars "USB") (chars a.device)
  let b2 := !listHas (chars "USB") (chars b.device)
  boolLT a1 b1 ||
    (a1 = b1 && (boolLT a2 b2 || (a2 = b2 && charListLE (chars a.device) (chars b.device))))

/-- Insert into a sorted list, keeping existing elements first on ties. -/
def insertLE {α : Type} (le : α → α → Bool) (x : α) : List α → List α
  | [] => [x]
  | y :: ys => if le y x then y :: insertLE le x ys else x :: y :: ys

/-- Insertion sort (standing in for Python's `list.sort`; no claim depends
on the order produced). -/
def sortByLE {α : Type} (le : α → α → Bool) : List α → List α
  | [] => []
  | x :: xs => insertLE le x (sortByLE le xs)

/-- `guess_port` (lines 16–19): all detected devices, ACM/USB-looking ones
first. -/
def guess_port (ports : List PortInfo) : List String :=
  (sortByLE portKeyLE ports).map PortInfo.device

/-- The console messages `pc_lick_logger.py` can print during startup. -/
inductive PCMsg where
  | noPortNoneDetected
  | candidates (devices : List String)
  | noPortsFound
  | autoSelected (d : String)
  | openFail (d : String)
deriving DecidableEq, Repr

/-- `suggest_ports` (lines 28–35): the full detected-port listing, or a
"none found" message when the list is empty. -/
def suggest_ports (ports : List PortInfo) : PCMsg :=
  if ports = [] then PCMsg.noPortsFound else PCMsg.candidates (ports.map PortInfo.device)

/-- Startup of `pc_lick_logger.main` (lines 55–68): pick the explicit port or
the first detected one; exit 2 printing `suggest_ports` when none exist or
when `serial.Serial` fails, `suggest_ports` again in the diagnostic. -/
def pcStartup (portArg : Option String) (ports : List PortInfo)
    (canOpen : String → Bool) : Sum (Nat × List PCMsg) (String × List PCMsg) :=
  match portArg with
  | none =>
    match ports with
    | [] => Sum.inl (2, [PCMsg.noPortNoneDetected, suggest_ports ports])
    | p :: _ =>
      if canOpen p.device then Sum.inr (p.device, [PCMsg.autoSelected p.device])
      else Sum.inl (2, [PCMsg.autoSelected p.device, PCMsg.openFail p.device,
        suggest_ports ports])
  | some p =>
    if canOpen p then Sum.inr (p, [])
    else Sum.inl (2, [PCMsg.openFail p, suggest_ports ports])

/-- The console messages `serial_to_csv_rotating.py` can print during
startup. -/
inductive SerMsg where
  | noPortsDetected
  | detected (ds : List String)
  | usando (d : String)
  | openFail (d : String)
deriving DecidableEq, Repr

/-- Startup of `serial_to_csv_rotating.main` (lines 62–82): with an explicit
port, try to open it and on failure exit 1 printing only the error line;
with auto-detection, exit 2 when nothing is detected, else print the
candidate list, pick the first, and on open failure exit 1. -/
def serStartup (portArg : Option String) (ports : List PortInfo)
    (canOpen : String → Bool) : Sum (Nat × List SerMsg) (String × List SerMsg) :=
  match portArg with
  | some p =>
    if canOpen p then Sum.inr (p, []) else Sum.inl (1, [SerMsg.openFail p])
  | none =>
    match guess_port ports with
    | [] => Sum.inl (2, [SerMsg.noPortsDetected])
    | c :: _ =>
      if canOpen c then Sum.inr (c, [SerMsg.detected (guess_port ports), SerMsg.usando c])
      else Sum.inl (1, [SerMsg.detected (guess_port ports), SerMsg.usando c,
        SerMsg.openFail c])

/-- C8 counterexample: `serial_to_csv_rotating.py` started with an explicit
port that cannot be opened exits with status 1 printing only the open-error
line — no candidate list appears in its diagnostic, against the claim. -/
theorem startup_no_candidate_list :
    serStartup (some "COM3") [PortInfo.mk "COM4" "Arduino"] (fun _ => false)
      = Sum.inl (1, [SerMsg.openFail "COM3"])
  ∧ ∀ ds, SerMsg.detected ds ∉ [SerMsg.openFail "COM3"] := by
  refine ⟨rfl, ?_⟩
  intro ds h
  rw [List.mem_singleton] at h
  exact SerMsg.noConfusion h

/-- C8 amended: every startup whose channel cannot be opened exits with a
non-zero status and is offered no retry, and `pc_lick_logger.py` prints the
`suggest_ports` listing in every fatal path; but `serial_to_csv_rotating.py`
prints only the open-error line when the port was given explicitly (it
prints the candidate list only on the auto-detect path, and then before the
open attempt), and exits 2 with only a "none detected" line when discovery
finds nothing. -/
theorem startup_failure_diagnostics :
    (∀ (pa : Option String) (ports : List PortInfo) (canOpen : String → Bool)
        (code : Nat) (msgs : List PCMsg),
        pcStartup pa ports canOpen = Sum.inl (code, msgs) →
          code = 2 ∧ suggest_ports ports ∈ msgs)
  ∧ (∀ (p : String) (ports : List PortInfo) (canOpen : String → Bool),
        canOpen p = false →
          serStartup (some p) ports canOpen = Sum.inl (1, [SerMsg.openFail p]))
  ∧ (∀ (ports : List PortInfo) (canOpen : String → Bool) (c : String) (cs : List String),
        guess_port ports = c :: cs → canOpen c = false →
          serStartup none ports canOpen
            = Sum.inl (1, [SerMsg.detected (guess_port ports), SerMsg.usando c,
                SerMsg.openFail c]))
  ∧ (∀ (ports : List PortInfo) (canOpen : String → Bool),
        guess_port ports = [] →
          serStartup none ports canOpen = Sum.inl (2, [SerMsg.noPortsDetected])) := by
  refine ⟨?_, ?_, ?_, ?_⟩
  · intro pa ports canOpen code msgs h
    cases pa with
    | none =>
      cases ports with
      | nil =>
        obtain ⟨h1, h2⟩ := Prod.mk.inj (Sum.inl.inj h)
        exact ⟨h1.symm, by rw [← h2]; simp⟩
      | cons p ps =>
        by_cases hc : canOpen p.device = true
        · simp [pcStartup, hc] at h
        · rw [pcStartup] at h
          rw [if_neg hc] at h
          obtain ⟨h1, h2⟩ := Prod.mk.inj (Sum.inl.inj h)
          exact ⟨h1.symm, by rw [← h2]; simp⟩
    | some p =>
      by_cases hc : canOpen p = true
      · simp [pcStartup, hc] at h
      · rw [pcStartup] at h
        rw [if_neg hc] at h
        obtain ⟨h1, h2⟩ := Prod.mk.inj (Sum.inl.inj h)
        exact ⟨h1.symm, by rw [← h2]; simp⟩
  · intro p ports canOpen h
    rw [serStartup, h]
    rfl
  · intro ports canOpen c cs hg h
    rw [serStartup, hg]
    simp [h]
  · intro ports canOpen hg
    rw [serStartup, hg]

/-- A concrete fatal startup exercising `startup_failure_diagnostics`: the
pc logger's explicit-port failure exits 2 with the candidate list printed,
the serial logger's exits 1 with only the error line. -/
theorem startup_failure_diagnostics_witness :
    ((2 : Nat) = 2
      ∧ suggest_ports [PortInfo.mk "COM4" "Arduino"]
          ∈ [PCMsg.openFail "COM3", suggest_ports [PortInfo.mk "COM4" "Arduino"]])
  ∧ serStartup (some "COM3") [PortInfo.mk "COM4" "Arduino"] (fun _ => false)
      = Sum.inl (1, [SerMsg.openFail "COM3"]) := by
  constructor
  · exact startup_failure_diagnostics.1 (some "COM3") [PortInfo.mk "COM4" "Arduino"]
      (fun _ => false) 2
      [PCMsg.openFail "COM3", suggest_ports [PortInfo.mk "COM4" "Arduino"]] rfl
  · exact startup_failure_diagnostics.2.1 "COM3" [PortInfo.mk "COM4" "Arduino"]
      (fun _ => false) rfl

/-! ### Claim C9: transient read errors during the loop -/

/-- C9 counterexample: in `pc_lick_logger.py` the `ser.readline()` call has
no exception handler inside the loop, so a transient read error terminates
the run: the step has no successor and the rest of the input — here an
accepted lick line — is never processed. -/
theorem read_error_terminates_pc :
    pcStep 900 (pcInit 0) ⟨ReadResult.error, 1, 1⟩ = none
  ∧ pcRun 900 (pcInit 0)
      [⟨ReadResult.error, 1, 1⟩, ⟨ReadResult.data (chars "7\tlick\tz"), 2, 2⟩]
      = (pcInit 0, []) := ⟨rfl, rfl⟩

/-- C9 amended: only `serial_to_csv_rotating.py` handles a transient read
error as the claim says — the error is logged, a short sleep is taken, the
state is untouched and the loop continues with the remaining input (the
`continue` also skips that iteration's rotation check); in
`pc_lick_logger.py` the error is uncaught and ends the run. -/
theorem read_error_handling :
    (∀ (p' : Int) (st : SerState) (i : SerInput) (rest : List SerInput),
        i.read = ReadResult.error →
          serStep p' st i = (st, [Act.logError, Act.sleepShort])
          ∧ serRun p' st (i :: rest)
              = ((serRun p' st rest).1,
                 Act.logError :: Act.sleepShort :: (serRun p' st rest).2))
  ∧ (∀ (ra : Int) (st : PCState) (i : PCInput) (rest : List PCInput),
        i.read = ReadResult.error →
          pcStep ra st i = none ∧ pcRun ra st (i :: rest) = (st, [])) := by
  constructor
  · intro p' st i rest hr
    have hstep : serStep p' st i = (st, [Act.logError, Act.sleepShort]) := by
      simp [serStep, hr]
    refine ⟨hstep, ?_⟩
    rw [serRun_cons, hstep]
    rfl
  · intro ra st i rest hr
    have hstep : pcStep ra st i = none := by simp [pcStep, hr]
    refine ⟨hstep, ?_⟩
    conv_lhs => rw [pcRun]
    rw [hstep]

/-- A concrete read error exercising `read_error_handling`. -/
theorem read_error_handling_witness :
    serStep 60 (serInit 0 60) ⟨ReadResult.error, 1, 1, 1⟩
      = (serInit 0 60, [Act.logError, Act.sleepShort])
  ∧ pcStep 900 (pcInit 5) ⟨ReadResult.error, 1, 1⟩ = none :=
  ⟨(read_error_handling.1 60 (serInit 0 60) ⟨ReadResult.error, 1, 1, 1⟩ [] rfl).1,
   (read_error_handling.2 900 (pcInit 5) ⟨ReadResult.error, 1, 1⟩ [] rfl).1⟩
